import Mathlib

/-!
Verification development for the Evy language core: a shallow embedding of
the tree-walking evaluator (`pkg/evaluator/evaluator.go`), of the conversion
builtins (`pkg/evaluator/testinfo.go`), and of the bytecode virtual machine
(whose sources are absent from this snapshot; it is modelled from the
specification and from the bytecode listings asserted in
`pkg/bytecode/vm_test.go`).

Conventions:
* Evy `num` is a 64-bit IEEE float.  The embedding `EF` represents a float
  as an exact rational (`Q`), a signed infinity, or NaN.  Arithmetic on
  finite operands is modelled exactly; every concrete program evaluated in
  the theorems below stays inside the dyadic range where 64-bit floats are
  exact, so the modelling introduces no deviation on those runs.
* Go values of interface type `Value` are pointers to mutable objects; the
  embedding uses an explicit heap (`List Obj`) addressed by `Nat`, so that
  aliasing and in-place mutation (`Value.Set`) behave exactly as in Go.
-/

/-- Executable rational number: integer numerator over a positive integer
denominator, not necessarily reduced (Mathlib's `ℚ` normalizes with
`Nat.gcd`, which the kernel cannot evaluate; this type keeps every
operation kernel-reducible).  Numeric equality is `Q.qeq`, by
cross-multiplication. -/
structure Q where
  n : ℤ
  d : ℤ
  dpos : 0 < d

namespace Q

/-- Build a rational from a fraction with a denominator of either sign
(a zero denominator yields the junk value 0; all callers rule it out). -/
def mk2 (a b : ℤ) : Q :=
  if h : 0 < b then ⟨a, b, h⟩
  else if h2 : b < 0 then ⟨-a, -b, by omega⟩
  else ⟨0, 1, one_pos⟩

/-- Embed an integer. -/
def ofInt (k : ℤ) : Q := ⟨k, 1, one_pos⟩

def add (a b : Q) : Q := ⟨a.n * b.d + b.n * a.d, a.d * b.d, mul_pos a.dpos b.dpos⟩

def neg (a : Q) : Q := ⟨-a.n, a.d, a.dpos⟩

def sub (a b : Q) : Q := add a (neg b)

def mul (a b : Q) : Q := ⟨a.n * b.n, a.d * b.d, mul_pos a.dpos b.dpos⟩

/-- Division; callers check the divisor is nonzero first. -/
def div (a b : Q) : Q := mk2 (a.n * b.d) (a.d * b.n)

/-- Numeric equality, by cross-multiplication. -/
def qeq (a b : Q) : Bool := a.n * b.d == b.n * a.d

/-- Numeric strict order (denominators are positive). -/
def qlt (a b : Q) : Bool := decide (a.n * b.d < b.n * a.d)

def qle (a b : Q) : Bool := qlt a b || qeq a b

def isZero (a : Q) : Bool := a.n == 0

def isNeg (a : Q) : Bool := decide (a.n < 0)

/-- Floor (`Int.ediv` rounds toward minus infinity; denominator positive). -/
def floor (a : Q) : ℤ := Int.ediv a.n a.d

/-- Truncation toward zero (`Int.tdiv` truncates). -/
def trunc (a : Q) : ℤ := Int.tdiv a.n a.d

/-- The integer content of the rational, when it is an integer. -/
def toInt (a : Q) : Option ℤ :=
  if Int.emod a.n a.d = 0 then some (Int.ediv a.n a.d) else none

theorem qeq_refl (a : Q) : qeq a a = true := beq_self_eq_true _

theorem qeq_symm (a b : Q) : qeq a b = qeq b a := by
  simp only [qeq]
  by_cases h : a.n * b.d = b.n * a.d
  · rw [h]
  · rw [beq_false_of_ne h, beq_false_of_ne fun hx => h hx.symm]

theorem qeq_trans (a b c : Q) (hab : qeq a b = true) (hbc : qeq b c = true) :
    qeq a c = true := by
  simp only [qeq, beq_iff_eq] at *
  have hbd : b.d ≠ 0 := ne_of_gt b.dpos
  apply mul_right_cancel₀ hbd
  calc a.n * c.d * b.d = (a.n * b.d) * c.d := by ring
    _ = (b.n * a.d) * c.d := by rw [hab]
    _ = (b.n * c.d) * a.d := by ring
    _ = (c.n * b.d) * a.d := by rw [hbc]
    _ = c.n * a.d * b.d := by ring

/-- The remainder Go's `math.Mod` computes: `x - y·trunc(x/y)`; the result
has the sign of the dividend.  The repository's own VM tests compute
expected values of Evy's `%` with `math.Mod` (vm_test.go, "all operators"). -/
def fmod (x y : Q) : Q := sub x (mul y (ofInt (trunc (div x y))))

/-- Nearest integer with ties to even, the rounding IEEE 754 prescribes for
its remainder operation. -/
def roundEven (x : Q) : ℤ :=
  let m : ℤ := floor x
  let d : Q := sub x (ofInt m)
  if qlt d (mk2 1 2) then m
  else if qlt (mk2 1 2) d then m + 1
  else if Even m then m else m + 1

/-- The IEEE 754 remainder operation (`remainder(x, y) = x − y·k` with `k`
the integer nearest `x/y`, ties to even).  Stated from the spec's words
"`%` accepts floats (IEEE remainder semantics)" to compare against what the
code computes. -/
def ieeeRemainder (x y : Q) : Q := sub x (mul y (ofInt (roundEven (div x y))))

end Q

/-- Evy `num`: a 64-bit float, modelled as exact rational / infinity / NaN. -/
inductive EF where
  | fin (q : Q)
  | inf (neg : Bool)
  | nan

namespace EF

/-- Float addition (finite part exact). -/
def add : EF → EF → EF
  | fin a, fin b => fin (Q.add a b)
  | nan, _ => nan
  | _, nan => nan
  | inf s, inf t => if s = t then inf s else nan
  | inf s, fin _ => inf s
  | fin _, inf s => inf s

/-- Float subtraction (finite part exact). -/
def sub : EF → EF → EF
  | fin a, fin b => fin (Q.sub a b)
  | nan, _ => nan
  | _, nan => nan
  | inf s, inf t => if s = t then nan else inf s
  | inf s, fin _ => inf s
  | fin _, inf s => inf (!s)

/-- Float multiplication (finite part exact). -/
def mul : EF → EF → EF
  | fin a, fin b => fin (Q.mul a b)
  | nan, _ => nan
  | _, nan => nan
  | inf s, inf t => inf (s != t)
  | inf s, fin b => if b.isZero then nan else inf (s != b.isNeg)
  | fin a, inf t => if a.isZero then nan else inf (t != a.isNeg)

/-- Float division, following IEEE 754: x/0 is a signed infinity for x ≠ 0
and NaN for x = 0 — this is what Go's `/` on `float64` computes, and hence
what `evalBinaryNumExpr` in evaluator.go yields (it performs no zero check). -/
def div : EF → EF → EF
  | fin a, fin b =>
      if b.isZero then (if a.isZero then nan else inf a.isNeg)
      else fin (Q.div a b)
  | nan, _ => nan
  | _, nan => nan
  | inf _, inf _ => nan
  | inf s, fin b => inf (s != b.isNeg)
  | fin _, inf _ => fin (Q.ofInt 0)

/-- Float equality (Go `==` on float64): NaN compares unequal to everything,
including itself. -/
def feq : EF → EF → Bool
  | fin a, fin b => Q.qeq a b
  | inf s, inf t => s = t
  | _, _ => false

/-- Float strict less-than; any comparison with NaN is false. -/
def flt : EF → EF → Bool
  | fin a, fin b => Q.qlt a b
  | fin _, inf s => !s
  | inf s, fin _ => s
  | inf s, inf t => s && !t
  | _, _ => false

/-- Float less-or-equal; any comparison with NaN is false. -/
def fle (a b : EF) : Bool := flt a b || feq a b

/-- Unary minus. -/
def neg : EF → EF
  | fin a => fin (Q.neg a)
  | inf s => inf (!s)
  | nan => nan

/-- The finite integer content of a float, when it is one. -/
def toInt : EF → Option ℤ
  | fin q => q.toInt
  | _ => none

/-- A float is NaN-free when it is not NaN. -/
def notNan : EF → Bool
  | nan => false
  | _ => true

theorem feq_refl (a : EF) (h : a.notNan = true) : feq a a = true := by
  cases a with
  | fin q => simpa [feq] using Q.qeq_refl q
  | inf s => simp [feq]
  | nan => simp [notNan] at h

theorem feq_symm (a b : EF) : feq a b = feq b a := by
  cases a <;> cases b <;> simp [feq]
  · exact Q.qeq_symm _ _
  · exact eq_comm

theorem feq_trans (a b c : EF) (hab : feq a b = true) (hbc : feq b c = true) :
    feq a c = true := by
  cases a <;> cases b <;> cases c <;> simp_all [feq]
  exact Q.qeq_trans _ _ _ hab hbc

end EF

example : Q.qeq (Q.fmod (Q.mk2 5 2) (Q.mk2 13 10)) (Q.mk2 6 5) = true := by decide
example : Q.qeq (Q.ieeeRemainder (Q.mk2 5 2) (Q.mk2 13 10)) (Q.mk2 (-1) 10) = true := by
  decide

/-!
## AST

Embedding of the `pkg/parser` node shapes exactly as the evaluator consumes
them (the parser package sources are absent from this snapshot; the node
fields below are the ones `evaluator.go` reads).  A `mapLit` node carries
the written pair order (`order`, the parser's `MapLiteral.Order`) and, in
addition, `pairsIter`: the sequence in which Go's `range` over the
`MapLiteral.Pairs` hash map delivers the pairs.  Go leaves that order
unspecified, so two embeddings of the same source text share `order` but
may differ in `pairsIter` (any permutation of the pairs).
-/

/-- Static types, as far as the evaluator inspects them
(`decl.Type() == parser.ANY_TYPE`). -/
inductive Typ where
  | numT | stringT | boolT | anyT | arrayT | mapT | noneT
  deriving DecidableEq

/-- Operators of `parser.Operator` handled by the evaluator. -/
inductive Op where
  | plus | minusOp | asterisk | slash
  | gt | lt | gteq | lteq
  | eq | noteq | andOp | orOp | bang
  deriving DecidableEq

mutual
/-- AST nodes (`parser.Program`, `parser.Declaration`, ...). -/
inductive Node where
  | program (stmts : List Node)
  | decl (name : String) (ty : Typ) (value : Node)
  | assign (target value : Node)
  | varRef (name : String)
  | numLit (v : EF)
  | strLit (s : String)
  | boolLit (b : Bool)
  | arrayLit (elems : List Node)
  | mapLit (pairsIter : List (String × Node)) (order : List String)
  | call (name : String) (args : List Node) (fd : FuncD)
  | ret (value : Option Node)
  | brk
  | ifStmt (ifB : CondBlock) (elseIfs : List CondBlock) (elseB : Option Node)
  | whileStmt (cb : CondBlock)
  | block (stmts : List Node)
  | unary (op : Op) (right : Node)
  | binary (op : Op) (left right : Node)
  | indexExpr (left index : Node)
  | dotExpr (left : Node) (key : String)

/-- `parser.FuncDecl`: parameter names, optional variadic parameter, body. -/
inductive FuncD where
  | mk (params : List String) (variadic : Option String) (body : Node)

/-- `parser.ConditionalBlock`: a condition and a block. -/
inductive CondBlock where
  | mk (cond : Node) (blk : Node)
end

def FuncD.params : FuncD → List String
  | .mk ps _ _ => ps

def FuncD.variadic : FuncD → Option String
  | .mk _ v _ => v

def FuncD.body : FuncD → Node
  | .mk _ _ b => b

def CondBlock.cond : CondBlock → Node
  | .mk c _ => c

def CondBlock.blk : CondBlock → Node
  | .mk _ b => b

/-!
## Runtime values, heap and scope

Go `Value`s are pointers to mutable objects (`*Num`, `*String`, `*Bool`,
`*Array`, `*Map`, `*Any`); the heap below makes the pointer structure
explicit.  An address is an index into the heap list; `none` stands for a
nil `Value` interface.
-/

abbrev Addr := Nat

/-- Heap objects: the mutable structs behind the `Value` interface.
Array elements and map values are themselves addresses (Go stores `Value`
pointers inside `Array.Elements` and `Map.Pairs`). -/
inductive Obj where
  | numO (v : EF)
  | strO (s : String)
  | boolO (b : Bool)
  | arrO (elems : List (Option Addr))
  | mapO (pairs : List (String × Option Addr)) (order : List String)
  | anyO (inner : Option Addr)

/-- Association-list lookup (first match). -/
def lookupA {α : Type} : List (String × α) → String → Option α
  | [], _ => none
  | (k, v) :: rest, key => if k = key then some v else lookupA rest key

/-- Association-list update-or-append (Go map assignment). -/
def setA {α : Type} : List (String × α) → String → α → List (String × α)
  | [], key, v => [(key, v)]
  | (k, w) :: rest, key, v =>
      if k = key then (key, v) :: rest else (k, w) :: setA rest key v

/-- A scope frame: the `vars` map of one `scope` struct. -/
abbrev Frame := List (String × Option Addr)

/-- The scope chain, innermost frame first.  Modelled from the spec:
`scope.go` is absent from this snapshot; per §3 invariant 5 and the uses in
evaluator.go, `get` walks the chain outward and `set` writes the innermost
frame. -/
abbrev Scope := List Frame

/-- `newScope()`: an empty root scope. -/
def newScope : Scope := [[]]

/-- `newInnerScope(parent)`: push a fresh empty frame. -/
def pushFrame (sc : Scope) : Scope := [] :: sc

/-- `scope.get`: innermost binding wins. -/
def scopeGet : Scope → String → Option (Option Addr)
  | [], _ => none
  | f :: rest, name =>
      match lookupA f name with
      | some v => some v
      | none => scopeGet rest name

/-- `scope.set`: bind in the innermost frame. -/
def scopeSet (sc : Scope) (name : String) (v : Option Addr) : Scope :=
  match sc with
  | [] => [[(name, v)]]
  | f :: rest => setA f name v :: rest

/-- Evaluation state threaded through the evaluator: the heap and the
output collected by the injected `print`. -/
structure St where
  heap : List Obj
  out : List String

def St.empty : St := ⟨[], []⟩

/-- Allocate a fresh object (Go `&Num{...}` etc.). -/
def alloc (st : St) (o : Obj) : St × Addr :=
  (⟨st.heap ++ [o], st.out⟩, st.heap.length)

def heapGet (h : List Obj) (a : Addr) : Option Obj := h.get? a

/-- `Value.Set` from the value model.  Modelled from the spec: value.go is
absent; §4.D says set is an in-place assignment — strings/nums/bools
replace contents, arrays/maps replace handle contents by copying from the
source.  The embedding writes the source object's current contents into
the target's heap slot, so later writes through the source handle do not
affect the target, while every alias of the target observes the change. -/
def setValue (st : St) (target source : Addr) : St :=
  match heapGet st.heap source with
  | some so => ⟨st.heap.set target so, st.out⟩
  | none => st

/-- Results of `Evaluator.Eval`: a `Value`, which may be nil, an `Error`,
a `ReturnValue` or a `Break` sentinel. -/
inductive RVal where
  | nilV
  | addr (a : Addr)
  | errV (msg : String)
  | retV (v : Option Addr)
  | brkV

def RVal.isError : RVal → Bool
  | .errV _ => true
  | _ => false

def RVal.isReturn : RVal → Bool
  | .retV _ => true
  | _ => false

def RVal.isBreak : RVal → Bool
  | .brkV => true
  | _ => false

/-- The address content of an expression result (nil otherwise). -/
def RVal.toOpt : RVal → Option Addr
  | .addr a => some a
  | _ => none

/-!
## Value read-out, deep equality and printing

`value.go` is absent from this snapshot.  `Equals` and `String` are
modelled from the spec (§3: num/string/bool equality by content with num a
64-bit float, deep equality for arrays and maps, equality through `any`
unwraps; §4.D: `string()` for printing).  Equality is defined on pure value
trees read out of the heap.
-/

/-- A pure value tree: the shape of a runtime value with all pointers
chased.  `nilP` stands for a nil `Value`. -/
inductive PVal where
  | numP (v : EF)
  | strP (s : String)
  | boolP (b : Bool)
  | arrP (elems : List PVal)
  | mapP (pairs : List (String × PVal))
  | anyP (inner : Option PVal)
  | nilP

mutual
/-- Read a value tree out of the heap (fuel bounds the depth; every
concrete run below uses more fuel than the structures are deep). -/
def readVal : Nat → List Obj → Option Addr → PVal
  | _, _, none => .nilP
  | 0, _, some _ => .nilP
  | fuel + 1, h, some a =>
      match heapGet h a with
      | some (.numO v) => .numP v
      | some (.strO s) => .strP s
      | some (.boolO b) => .boolP b
      | some (.arrO es) => .arrP (readList fuel h es)
      | some (.mapO ps _) => .mapP (readPairs fuel h ps)
      | some (.anyO i) =>
          .anyP (match i with
                 | none => none
                 | some b => some (readVal fuel h (some b)))
      | none => .nilP

def readList : Nat → List Obj → List (Option Addr) → List PVal
  | _, _, [] => []
  | 0, _, _ :: _ => []
  | fuel + 1, h, v :: rest => readVal fuel h v :: readList fuel h rest

def readPairs : Nat → List Obj → List (String × Option Addr) → List (String × PVal)
  | _, _, [] => []
  | 0, _, _ :: _ => []
  | fuel + 1, h, (k, v) :: rest => (k, readVal fuel h v) :: readPairs fuel h rest
end

mutual
/-- Remove every `any` box (spec §3 invariant 2: equality ignores boxing). -/
def pvStrip : PVal → PVal
  | .anyP (some v) => pvStrip v
  | .anyP none => .anyP none
  | .arrP es => .arrP (pvStripList es)
  | .mapP ps => .mapP (pvStripPairs ps)
  | .numP v => .numP v
  | .strP s => .strP s
  | .boolP b => .boolP b
  | .nilP => .nilP

def pvStripList : List PVal → List PVal
  | [] => []
  | v :: rest => pvStrip v :: pvStripList rest

def pvStripPairs : List (String × PVal) → List (String × PVal)
  | [] => []
  | (k, v) :: rest => (k, pvStrip v) :: pvStripPairs rest
end

mutual
/-- Deep equality on box-free value trees: nums by float equality, strings
and bools by content, arrays pointwise, maps by key set and pointwise
values. -/
def eqCore : PVal → PVal → Bool
  | .numP a, .numP b => EF.feq a b
  | .strP a, .strP b => a == b
  | .boolP a, .boolP b => a == b
  | .arrP xs, .arrP ys => eqList xs ys
  | .mapP xs, .mapP ys => xs.length == ys.length && eqMapSub xs ys
  | .anyP none, .anyP none => true
  | .nilP, .nilP => true
  | _, _ => false

def eqList : List PVal → List PVal → Bool
  | [], [] => true
  | x :: xs, y :: ys => eqCore x y && eqList xs ys
  | _, _ => false

def eqMapSub : List (String × PVal) → List (String × PVal) → Bool
  | [], _ => true
  | (k, v) :: rest, ys =>
      (match lookupA ys k with
       | some w => eqCore v w
       | none => false) && eqMapSub rest ys
end

/-- `Value.Equals` on value trees: unwrap `any` boxes, then deep equality. -/
def pvEquals (a b : PVal) : Bool := eqCore (pvStrip a) (pvStrip b)

/-- Decimal digits of an integer. -/
def intStr (i : ℤ) : String :=
  if i < 0 then "-" ++ Nat.repr i.natAbs else Nat.repr i.natAbs

/-- Fractional decimal digits by long division (at most `fuel` digits;
Go prints the shortest round-tripping decimal — the two agree on the
integral values the concrete theorems print). -/
def fracStr : Nat → ℤ → ℤ → String
  | 0, _, _ => ""
  | fuel + 1, r, d =>
      if r = 0 then ""
      else
        let r10 := r * 10
        let dig := Int.ediv r10 d
        Nat.repr dig.toNat ++ fracStr fuel (r10 - dig * d) d

/-- Render a rational in decimal. -/
def qToStr (x : Q) : String :=
  let sgn := if x.n < 0 then "-" else ""
  let a : ℤ := (x.n.natAbs : ℤ)
  let ip := Int.ediv a x.d
  let r := a - ip * x.d
  if r = 0 then sgn ++ intStr ip
  else sgn ++ intStr ip ++ "." ++ fracStr 17 r x.d

/-- Render a float as Go's `%v` does on the values arising here. -/
def efToStr : EF → String
  | .fin q => qToStr q
  | .inf false => "+Inf"
  | .inf true => "-Inf"
  | .nan => "NaN"

/-- Concatenate with a separator. -/
def joinSep (sep : String) : List String → String
  | [] => ""
  | [s] => s
  | s :: rest => s ++ sep ++ joinSep sep rest

mutual
/-- `Value.String` on value trees. -/
def pvToStr : PVal → String
  | .numP v => efToStr v
  | .strP s => s
  | .boolP b => if b then "true" else "false"
  | .arrP es => "[" ++ joinSep " " (pvToStrList es) ++ "]"
  | .mapP ps => "\x7b" ++ joinSep " " (pvToStrPairs ps) ++ "\x7d"
  | .anyP (some v) => pvToStr v
  | .anyP none => ""
  | .nilP => ""

def pvToStrList : List PVal → List String
  | [] => []
  | v :: rest => pvToStr v :: pvToStrList rest

def pvToStrPairs : List (String × PVal) → List String
  | [] => []
  | (k, v) :: rest => (k ++ ":" ++ pvToStr v) :: pvToStrPairs rest
end

/-!
## The tree-walking evaluator

A direct transcription of `Evaluator.Eval` and its helpers from
`pkg/evaluator/evaluator.go`.  The single registered builtin is `print`
(`printFunc` from the builtins file); the programs evaluated in the
theorems call no other builtin.  `fuel` bounds the recursion depth and
loop iterations; every concrete run below receives ample fuel.
-/

def RVal.errMsg : RVal → String
  | .errV m => m
  | _ => ""

/-- Bind parameter names to argument values, in order
(`scope.set(param.Name, args[i])`). -/
def bindList (sc : Scope) : List String → List (Option Addr) → Scope
  | [], _ => sc
  | _, [] => sc
  | p :: ps, v :: vs => bindList (scopeSet sc p v) ps vs

/-- `innerScopeWithArgs`: a fresh frame as a child of the scope the
evaluator passes in — which is the caller's current scope — with the
parameters bound; a variadic parameter receives a fresh array holding the
argument slice. -/
def innerScopeWithArgs (st : St) (sc : Scope) (fd : FuncD)
    (args : List (Option Addr)) : St × Scope :=
  let sc2 := bindList (pushFrame sc) fd.params args
  match fd.variadic with
  | none => (st, sc2)
  | some n =>
      let (st2, a) := alloc st (.arrO args)
      (st2, scopeSet sc2 n (some a))

/-- `evalBinaryNumExpr`: arithmetic and comparisons on nums.  Note the
division case performs no zero check — it is Go float64 division. -/
def evalBinaryNum (op : Op) (l r : EF) : Except String Obj :=
  match op with
  | .plus => .ok (.numO (EF.add l r))
  | .minusOp => .ok (.numO (EF.sub l r))
  | .asterisk => .ok (.numO (EF.mul l r))
  | .slash => .ok (.numO (EF.div l r))
  | .gt => .ok (.boolO (EF.flt r l))
  | .lt => .ok (.boolO (EF.flt l r))
  | .gteq => .ok (.boolO (EF.fle r l))
  | .lteq => .ok (.boolO (EF.fle l r))
  | _ => .error "unknown num operation"

/-- `evalBinaryStringExpr`. -/
def evalBinaryStr (op : Op) (l r : String) : Except String Obj :=
  match op with
  | .plus => .ok (.strO (l ++ r))
  | .gt => .ok (.boolO (decide (r < l)))
  | .lt => .ok (.boolO (decide (l < r)))
  | .gteq => .ok (.boolO (!decide (l < r)))
  | .lteq => .ok (.boolO (!decide (r < l)))
  | _ => .error "unknown string operation"

/-- `evalBinaryBoolExpr`: note both operands were already evaluated by
`evalBinaryExpr`, so `and` and `or` do not short-circuit here. -/
def evalBinaryBool (op : Op) (l r : Bool) : Except String Obj :=
  match op with
  | .andOp => .ok (.boolO (l && r))
  | .orOp => .ok (.boolO (l || r))
  | _ => .error "unknown bool operation"

/-- `Array.Index` / `String.Index` index arithmetic.  Modelled from the
spec (§4.D): the index must be an integral num, a negative index counts
from the end, out-of-range indices produce an error. -/
def seqIndex (len : ℕ) (idx : EF) : Except String ℕ :=
  match idx.toInt with
  | none => .error "index not an integer"
  | some i =>
      let j : ℤ := if i < 0 then i + len else i
      if 0 ≤ j ∧ j < (len : ℤ) then .ok j.toNat else .error "index out of bounds"

/-- `Map.Get`.  Modelled from the spec (§4.D, §7: missing key is the
`MapKey` runtime error). -/
def mapGet (pairs : List (String × Option Addr)) (k : String) :
    Except String (Option Addr) :=
  match lookupA pairs k with
  | some v => .ok v
  | none => .error ("no value for map key " ++ k)

/-- The output line `printFunc` produces: arguments joined by one space,
then a newline. -/
def printJoin (fuel : Nat) (h : List Obj) (vs : List (Option Addr)) : String :=
  joinSep " " (vs.map fun v => pvToStr (readVal fuel h v)) ++ "\n"

/-- Read the num object an expression result points at. -/
def numAt (h : List Obj) : Option Addr → Option EF
  | some a =>
      match heapGet h a with
      | some (.numO v) => some v
      | _ => none
  | none => none

mutual
/-- `Evaluator.Eval`. -/
def eval : Nat → St → Scope → Node → St × Scope × RVal
  | 0, st, sc, _ => (st, sc, .errV "out of fuel")
  | fuel + 1, st, sc, node =>
    match node with
    | .program stmts => evalStmts fuel st sc stmts
    | .block stmts => evalStmts fuel st sc stmts
    | .decl name ty value =>
        let (st1, sc1, v) := eval fuel st sc value
        if v.isError then (st1, sc1, v)
        else if ty = .anyT then
          let (st2, b) := alloc st1 (.anyO v.toOpt)
          (st2, scopeSet sc1 name (some b), .nilV)
        else (st1, scopeSet sc1 name v.toOpt, .nilV)
    | .assign target value =>
        let (st1, sc1, v) := eval fuel st sc value
        if v.isError then (st1, sc1, v)
        else
          let (st2, sc2, t) := eval fuel st1 sc1 target
          if t.isError then (st2, sc2, t)
          else
            match t, v with
            | .addr ta, .addr va => (setValue st2 ta va, sc2, .nilV)
            | _, _ => (st2, sc2, .errV "set on nil value")
    | .varRef name =>
        match scopeGet sc name with
        | some (some a) => (st, sc, .addr a)
        | some none => (st, sc, .nilV)
        | none => (st, sc, .errV ("cannot find variable " ++ name))
    | .numLit v =>
        let (st1, a) := alloc st (.numO v)
        (st1, sc, .addr a)
    | .strLit s =>
        let (st1, a) := alloc st (.strO s)
        (st1, sc, .addr a)
    | .boolLit b =>
        let (st1, a) := alloc st (.boolO b)
        (st1, sc, .addr a)
    | .arrayLit elems =>
        match evalList fuel st sc elems with
        | (st1, .error m) => (st1, sc, .errV m)
        | (st1, .ok vs) =>
            let (st2, a) := alloc st1 (.arrO vs)
            (st2, sc, .addr a)
    | .mapLit pairsIter order =>
        match evalPairs fuel st sc [] pairsIter with
        | (st1, .error m) => (st1, sc, .errV m)
        | (st1, .ok ps) =>
            let (st2, a) := alloc st1 (.mapO ps order)
            (st2, sc, .addr a)
    | .call name args fd =>
        match evalList fuel st sc args with
        | (st1, .error m) => (st1, sc, .errV m)
        | (st1, .ok vs) =>
            if name = "print" then
              (⟨st1.heap, st1.out ++ [printJoin fuel st1.heap vs]⟩, sc, .nilV)
            else
              let (st2, sc2) := innerScopeWithArgs st1 sc fd vs
              let (st3, _, r) := eval fuel st2 sc2 fd.body
              match r with
              | .retV (some a) => (st3, sc, .addr a)
              | .retV none => (st3, sc, .nilV)
              | _ => (st3, sc, r)
    | .ret value =>
        match value with
        | none => (st, sc, .retV none)
        | some e =>
            let (st1, sc1, v) := eval fuel st sc e
            if v.isError then (st1, sc1, v)
            else (st1, sc1, .retV v.toOpt)
    | .brk => (st, sc, .brkV)
    | .ifStmt ifB elseIfs elseB =>
        let (st1, r, ok) := evalCond fuel st sc ifB
        if ok || r.isError then (st1, sc, r)
        else evalElseIfs fuel st1 sc elseIfs elseB
    | .whileStmt cb => whileLoop fuel st sc cb
    | .unary op right =>
        let (st1, sc1, r) := eval fuel st sc right
        if r.isError then (st1, sc1, r)
        else
          match r.toOpt with
          | some a =>
              match heapGet st1.heap a, op with
              | some (.numO v), .minusOp =>
                  let (st2, b) := alloc st1 (.numO (EF.neg v))
                  (st2, sc1, .addr b)
              | some (.boolO v), .bang =>
                  let (st2, b) := alloc st1 (.boolO (!v))
                  (st2, sc1, .addr b)
              | _, _ => (st1, sc1, .errV "unknown unary operation")
          | none => (st1, sc1, .errV "unknown unary operation")
    | .binary op left right =>
        let (st1, sc1, lv) := eval fuel st sc left
        if lv.isError then (st1, sc1, lv)
        else
          let (st2, sc2, rv) := eval fuel st1 sc1 right
          if rv.isError then (st2, sc2, rv)
          else if op = .eq then
            let b := pvEquals (readVal fuel st2.heap lv.toOpt)
                       (readVal fuel st2.heap rv.toOpt)
            let (st3, c) := alloc st2 (.boolO b)
            (st3, sc2, .addr c)
          else if op = .noteq then
            let b := pvEquals (readVal fuel st2.heap lv.toOpt)
                       (readVal fuel st2.heap rv.toOpt)
            let (st3, c) := alloc st2 (.boolO (!b))
            (st3, sc2, .addr c)
          else
            match lv.toOpt with
            | some la =>
                match heapGet st2.heap la with
                | some (.numO a) =>
                    match rv.toOpt with
                    | some ra =>
                        match heapGet st2.heap ra with
                        | some (.numO b) =>
                            match evalBinaryNum op a b with
                            | .ok o =>
                                let (st3, c) := alloc st2 o
                                (st3, sc2, .addr c)
                            | .error m => (st2, sc2, .errV m)
                        | _ => (st2, sc2, .errV "operand type mismatch")
                    | none => (st2, sc2, .errV "operand type mismatch")
                | some (.strO a) =>
                    match rv.toOpt with
                    | some ra =>
                        match heapGet st2.heap ra with
                        | some (.strO b) =>
                            match evalBinaryStr op a b with
                            | .ok o =>
                                let (st3, c) := alloc st2 o
                                (st3, sc2, .addr c)
                            | .error m => (st2, sc2, .errV m)
                        | _ => (st2, sc2, .errV "operand type mismatch")
                    | none => (st2, sc2, .errV "operand type mismatch")
                | some (.boolO a) =>
                    match rv.toOpt with
                    | some ra =>
                        match heapGet st2.heap ra with
                        | some (.boolO b) =>
                            match evalBinaryBool op a b with
                            | .ok o =>
                                let (st3, c) := alloc st2 o
                                (st3, sc2, .addr c)
                            | .error m => (st2, sc2, .errV m)
                        | _ => (st2, sc2, .errV "operand type mismatch")
                    | none => (st2, sc2, .errV "operand type mismatch")
                | _ => (st2, sc2, .errV "unknown binary operation")
            | none => (st2, sc2, .errV "unknown binary operation")
    | .indexExpr left index =>
        let (st1, sc1, lv) := eval fuel st sc left
        if lv.isError then (st1, sc1, lv)
        else
          let (st2, sc2, iv) := eval fuel st1 sc1 index
          if iv.isError then (st2, sc2, iv)
          else
            match lv.toOpt with
            | some la =>
                match heapGet st2.heap la with
                | some (.arrO es) =>
                    match numAt st2.heap iv.toOpt with
                    | some idx =>
                        match seqIndex es.length idx with
                        | .ok j =>
                            (st2, sc2,
                              match es.get? j with
                              | some (some a) => .addr a
                              | _ => .nilV)
                        | .error m => (st2, sc2, .errV m)
                    | none => (st2, sc2, .errV "index not a num")
                | some (.strO s) =>
                    match numAt st2.heap iv.toOpt with
                    | some idx =>
                        match seqIndex s.data.length idx with
                        | .ok j =>
                            let (st3, b) :=
                              alloc st2 (.strO (String.mk
                                (match s.data.get? j with
                                 | some c => [c]
                                 | none => [])))
                            (st3, sc2, .addr b)
                        | .error m => (st2, sc2, .errV m)
                    | none => (st2, sc2, .errV "index not a num")
                | some (.mapO ps _) =>
                    match iv.toOpt with
                    | some ia =>
                        match heapGet st2.heap ia with
                        | some (.strO k) =>
                            match mapGet ps k with
                            | .ok (some a) => (st2, sc2, .addr a)
                            | .ok none => (st2, sc2, .nilV)
                            | .error m => (st2, sc2, .errV m)
                        | _ =>
                            (st2, sc2, .errV ("expected string for map index, found "
                              ++ pvToStr (readVal fuel st2.heap iv.toOpt)))
                    | none =>
                        (st2, sc2, .errV ("expected string for map index, found "
                          ++ pvToStr (readVal fuel st2.heap iv.toOpt)))
                | _ => (st2, sc2, .nilV)
            | none => (st2, sc2, .nilV)
    | .dotExpr left key =>
        let (st1, sc1, lv) := eval fuel st sc left
        if lv.isError then (st1, sc1, lv)
        else
          match lv.toOpt with
          | some la =>
              match heapGet st1.heap la with
              | some (.mapO ps _) =>
                  match mapGet ps key with
                  | .ok (some a) => (st1, sc1, .addr a)
                  | .ok none => (st1, sc1, .nilV)
                  | .error m => (st1, sc1, .errV m)
              | _ =>
                  (st1, sc1, .errV ("expected map before dot, found "
                    ++ pvToStr (readVal fuel st1.heap lv.toOpt)))
          | none =>
              (st1, sc1, .errV ("expected map before dot, found "
                ++ pvToStr (readVal fuel st1.heap lv.toOpt)))

/-- `evalStatments`: run statements in order, stopping at an error, a
return sentinel or a break sentinel; the result is the last statement's
value. -/
def evalStmts : Nat → St → Scope → List Node → St × Scope × RVal
  | 0, st, sc, _ => (st, sc, .errV "out of fuel")
  | _ + 1, st, sc, [] => (st, sc, .nilV)
  | fuel + 1, st, sc, s :: rest =>
      let (st1, sc1, r) := eval fuel st sc s
      if r.isError || r.isReturn || r.isBreak then (st1, sc1, r)
      else
        match rest with
        | [] => (st1, sc1, r)
        | _ => evalStmts fuel st1 sc1 rest

/-- `evalExprList`: left to right, stopping at the first error. -/
def evalList : Nat → St → Scope → List Node →
    St × Except String (List (Option Addr))
  | 0, st, _, _ => (st, .error "out of fuel")
  | _ + 1, st, _, [] => (st, .ok [])
  | fuel + 1, st, sc, t :: rest =>
      let (st1, _, v) := eval fuel st sc t
      if v.isError then (st1, .error v.errMsg)
      else
        match evalList fuel st1 sc rest with
        | (st2, .ok vs) => (st2, .ok (v.toOpt :: vs))
        | (st2, .error m) => (st2, .error m)

/-- The `range m.Pairs` loop of `evalMapLiteral`: evaluate the pair values
in the hash map's iteration order, inserting into the runtime pair store. -/
def evalPairs : Nat → St → Scope → List (String × Option Addr) →
    List (String × Node) → St × Except String (List (String × Option Addr))
  | 0, st, _, _, _ => (st, .error "out of fuel")
  | _ + 1, st, _, acc, [] => (st, .ok acc)
  | fuel + 1, st, sc, acc, (k, nd) :: rest =>
      let (st1, _, v) := eval fuel st sc nd
      if v.isError then (st1, .error v.errMsg)
      else evalPairs fuel st1 sc (setA acc k v.toOpt) rest

/-- `evalConditionalBlock`: a fresh inner scope for condition and block;
the second component reports whether the condition held. -/
def evalCond : Nat → St → Scope → CondBlock → St × RVal × Bool
  | 0, st, _, _ => (st, .errV "out of fuel", false)
  | fuel + 1, st, sc, cb =>
      let sc2 := pushFrame sc
      let (st1, sc3, c) := eval fuel st sc2 cb.cond
      if c.isError then (st1, c, false)
      else
        match c.toOpt with
        | some a =>
            match heapGet st1.heap a with
            | some (.boolO b) =>
                if b then
                  let (st2, _, r) := eval fuel st1 sc3 cb.blk
                  (st2, r, true)
                else (st1, .nilV, false)
            | _ => (st1, .errV "conditional not a bool", false)
        | none => (st1, .errV "conditional not a bool", false)

/-- `evalWhile`: re-run the conditional block while it fires and produces
no error, return or break; the loop's value — including a break
sentinel — is returned to the caller unchanged. -/
def whileLoop : Nat → St → Scope → CondBlock → St × Scope × RVal
  | 0, st, sc, _ => (st, sc, .errV "out of fuel")
  | fuel + 1, st, sc, cb =>
      let (st1, r, ok) := evalCond fuel st sc cb
      if ok && !r.isError && !r.isReturn && !r.isBreak then
        whileLoop fuel st1 sc cb
      else (st1, sc, r)

/-- The `ElseIfBlocks` loop and final `Else` of `evalIf`. -/
def evalElseIfs : Nat → St → Scope → List CondBlock → Option Node →
    St × Scope × RVal
  | 0, st, sc, _, _ => (st, sc, .errV "out of fuel")
  | _ + 1, st, sc, [], none => (st, sc, .nilV)
  | fuel + 1, st, sc, [], some b =>
      let (st1, _, r) := eval fuel st (pushFrame sc) b
      (st1, sc, r)
  | fuel + 1, st, sc, cb :: rest, eb =>
      let (st1, r, ok) := evalCond fuel st sc cb
      if ok || r.isError then (st1, sc, r)
      else evalElseIfs fuel st1 sc rest eb
end

/-- Shorthand for an integral num value. -/
def qi (k : ℤ) : EF := .fin (Q.ofInt k)

/-- Run a program as `RunWithBuiltins` does: `e.Eval(newScope(), prog)`. -/
def runEvy (prog : Node) : St × Scope × RVal := eval 1000 St.empty newScope prog

/-- Read the final value of a top-level variable out of the result state. -/
def finalVar (res : St × Scope × RVal) (name : String) : PVal :=
  readVal 1000 res.1.heap
    (match scopeGet res.2.1 name with
     | some v => v
     | none => none)

/-- The lines printed during the run. -/
def finalOut (res : St × Scope × RVal) : List String := res.1.out

/-- The run's result value (nil, error or sentinel). -/
def finalRes (res : St × Scope × RVal) : RVal := res.2.2

/-!
## Bytecode virtual machine

The compiler and VM sources are absent from this snapshot; the machine
below is modelled from the spec (§4.F opcodes and operand widths, §4.G
dispatch loop and error returns) and from the bytecode listings and error
expectations asserted in `pkg/bytecode/vm_test.go`.  Jump targets are
absolute byte offsets into the instruction stream; `OpConstant`-class
opcodes occupy three bytes (opcode plus a u16 operand), the rest one.
Stack and globals hold nums and bools — the value shapes the claims
exercise; the division and modulo checks are the test-asserted
`ErrDivideByZero`.
-/

inductive VmVal where
  | numv (q : Q)
  | boolv (b : Bool)

/-- VM runtime errors (§4.G). -/
inductive VmErr where
  | divideByZero
  | badOperand
  | badConstant
  | badIp
  deriving DecidableEq

/-- Opcodes. -/
inductive Opc where
  | constant (i : ℕ)
  | pop
  | getGlobal (i : ℕ)
  | setGlobal (i : ℕ)
  | addOp | subOp | mulOp | divOp | modOp
  | minusU | bangU
  | equalOp | notEqualOp
  | greaterThan | lessThan | greaterEqual | lessEqual
  | jump (t : ℕ)
  | jumpOnFalse (t : ℕ)
  | stepRange

/-- Encoded width in bytes. -/
def Opc.width : Opc → ℕ
  | .constant _ => 3
  | .getGlobal _ => 3
  | .setGlobal _ => 3
  | .jump _ => 3
  | .jumpOnFalse _ => 3
  | _ => 1

/-- Total byte length of an instruction stream. -/
def codeWidth (code : List Opc) : ℕ := (code.map Opc.width).sum

/-- Decode the instruction starting at byte offset `n`. -/
def fetch : List Opc → ℕ → Option Opc
  | [], _ => none
  | i :: rest, n =>
      if n = 0 then some i
      else if n < i.width then none
      else fetch rest (n - i.width)

structure VmSt where
  stack : List VmVal
  globals : List (Option VmVal)
  ip : ℕ

inductive VmOut where
  | halted (globals : List (Option VmVal))
  | failed (e : VmErr)
  | fuelOut

/-- `OpStepRange`: iteration continues while adding the step still moves
the counter toward `stop`; a zero step stops immediately. -/
def stepRangeCont (i step stop : Q) : Bool :=
  if Q.qlt (Q.ofInt 0) step then Q.qlt i stop
  else if Q.qlt step (Q.ofInt 0) then Q.qlt stop i
  else false

/-- The VM dispatch loop (`vm.Run`). -/
def vmRun : Nat → List Opc → List VmVal → VmSt → VmOut
  | 0, _, _, _ => .fuelOut
  | fuel + 1, code, consts, st =>
      if codeWidth code ≤ st.ip then .halted st.globals
      else
        match fetch code st.ip with
        | none => .failed .badIp
        | some op =>
            match op with
            | .constant i =>
                match consts.get? i with
                | some v =>
                    vmRun fuel code consts ⟨v :: st.stack, st.globals, st.ip + 3⟩
                | none => .failed .badConstant
            | .pop =>
                match st.stack with
                | _ :: rest => vmRun fuel code consts ⟨rest, st.globals, st.ip + 1⟩
                | [] => .failed .badOperand
            | .getGlobal i =>
                match st.globals.get? i with
                | some (some v) =>
                    vmRun fuel code consts ⟨v :: st.stack, st.globals, st.ip + 3⟩
                | _ => .failed .badOperand
            | .setGlobal i =>
                match st.stack with
                | v :: rest =>
                    vmRun fuel code consts
                      ⟨rest, st.globals.set i (some v), st.ip + 3⟩
                | [] => .failed .badOperand
            | .addOp =>
                match st.stack with
                | .numv r :: .numv l :: rest =>
                    vmRun fuel code consts
                      ⟨.numv (Q.add l r) :: rest, st.globals, st.ip + 1⟩
                | _ => .failed .badOperand
            | .subOp =>
                match st.stack with
                | .numv r :: .numv l :: rest =>
                    vmRun fuel code consts
                      ⟨.numv (Q.sub l r) :: rest, st.globals, st.ip + 1⟩
                | _ => .failed .badOperand
            | .mulOp =>
                match st.stack with
                | .numv r :: .numv l :: rest =>
                    vmRun fuel code consts
                      ⟨.numv (Q.mul l r) :: rest, st.globals, st.ip + 1⟩
                | _ => .failed .badOperand
            | .divOp =>
                match st.stack with
                | .numv r :: .numv l :: rest =>
                    if r.isZero then .failed .divideByZero
                    else
                      vmRun fuel code consts
                        ⟨.numv (Q.div l r) :: rest, st.globals, st.ip + 1⟩
                | _ => .failed .badOperand
            | .modOp =>
                match st.stack with
                | .numv r :: .numv l :: rest =>
                    if r.isZero then .failed .divideByZero
                    else
                      vmRun fuel code consts
                        ⟨.numv (Q.fmod l r) :: rest, st.globals, st.ip + 1⟩
                | _ => .failed .badOperand
            | .minusU =>
                match st.stack with
                | .numv v :: rest =>
                    vmRun fuel code consts
                      ⟨.numv (Q.neg v) :: rest, st.globals, st.ip + 1⟩
                | _ => .failed .badOperand
            | .bangU =>
                match st.stack with
                | .boolv b :: rest =>
                    vmRun fuel code consts
                      ⟨.boolv (!b) :: rest, st.globals, st.ip + 1⟩
                | _ => .failed .badOperand
            | .equalOp =>
                match st.stack with
                | .numv r :: .numv l :: rest =>
                    vmRun fuel code consts
                      ⟨.boolv (Q.qeq l r) :: rest, st.globals, st.ip + 1⟩
                | .boolv r :: .boolv l :: rest =>
                    vmRun fuel code consts
                      ⟨.boolv (l == r) :: rest, st.globals, st.ip + 1⟩
                | _ => .failed .badOperand
            | .notEqualOp =>
                match st.stack with
                | .numv r :: .numv l :: rest =>
                    vmRun fuel code consts
                      ⟨.boolv (!Q.qeq l r) :: rest, st.globals, st.ip + 1⟩
                | .boolv r :: .boolv l :: rest =>
                    vmRun fuel code consts
                      ⟨.boolv (l != r) :: rest, st.globals, st.ip + 1⟩
                | _ => .failed .badOperand
            | .greaterThan =>
                match st.stack with
                | .numv r :: .numv l :: rest =>
                    vmRun fuel code consts
                      ⟨.boolv (Q.qlt r l) :: rest, st.globals, st.ip + 1⟩
                | _ => .failed .badOperand
            | .lessThan =>
                match st.stack with
                | .numv r :: .numv l :: rest =>
                    vmRun fuel code consts
                      ⟨.boolv (Q.qlt l r) :: rest, st.globals, st.ip + 1⟩
                | _ => .failed .badOperand
            | .greaterEqual =>
                match st.stack with
                | .numv r :: .numv l :: rest =>
                    vmRun fuel code consts
                      ⟨.boolv (Q.qle r l) :: rest, st.globals, st.ip + 1⟩
                | _ => .failed .badOperand
            | .lessEqual =>
                match st.stack with
                | .numv r :: .numv l :: rest =>
                    vmRun fuel code consts
                      ⟨.boolv (Q.qle l r) :: rest, st.globals, st.ip + 1⟩
                | _ => .failed .badOperand
            | .jump t =>
                vmRun fuel code consts ⟨st.stack, st.globals, t⟩
            | .jumpOnFalse t =>
                match st.stack with
                | .boolv b :: rest =>
                    if b then
                      vmRun fuel code consts ⟨rest, st.globals, st.ip + 3⟩
                    else vmRun fuel code consts ⟨rest, st.globals, t⟩
                | _ => .failed .badOperand
            | .stepRange =>
                match st.stack with
                | .numv stop :: .numv step :: .numv i :: rest =>
                    vmRun fuel code consts
                      ⟨.boolv (stepRangeCont i step stop) :: rest,
                        st.globals, st.ip + 1⟩
                | _ => .failed .badOperand

/-!
## Array handles: concatenation and slicing (VM value model)

Modelled from the spec: the VM's value sources are absent from this
snapshot.  Per §3 invariant 3 and §9, arrays are shared-reference handles
to element slabs; `+` concatenation and slice expressions allocate a fresh
handle holding a shallow copy of the elements, and the VM tests
"concatenate preserve original" and "slice preserve original" assert that
mutating the fresh handle leaves the originals intact.  The heap is a list
of element slabs addressed by index; `α` is the element type (elements are
copied shallowly, whatever they are).
-/

/-- The element slab an array handle points to. -/
def arrRead {α : Type} (h : List (List α)) (a : ℕ) : List α := h.getD a []

/-- `a + b`: allocate a fresh handle with the concatenated elements. -/
def arrConcat {α : Type} (h : List (List α)) (a b : ℕ) : List (List α) × ℕ :=
  (h ++ [arrRead h a ++ arrRead h b], h.length)

/-- `a[i:]`: allocate a fresh handle with a copy of the elements from `i`. -/
def arrSliceFrom {α : Type} (h : List (List α)) (a i : ℕ) : List (List α) × ℕ :=
  (h ++ [(arrRead h a).drop i], h.length)

/-- `a[i] = v`: mutate one element in place through the handle. -/
def arrSetElem {α : Type} (h : List (List α)) (a i : ℕ) (v : α) : List (List α) :=
  h.set a ((arrRead h a).set i v)

/-!
## `str2num` and the `err`/`errmsg` globals

A transcription of `str2numFunc`, `setGlobalErr`, `resetGlobalErr` and
`globalErr` from `pkg/evaluator/testinfo.go`.  `strconv.ParseFloat` is Go
library code; `parseFloat` below models its documented behavior on decimal
inputs: the parsed value on success; 0 with a syntax error on malformed
input; the signed infinity with a range error when the value overflows
64-bit floats, and 0 with a range error when a nonzero value underflows to
zero.  (Go additionally accepts hex floats, underscores and Inf/NaN
literals; none of the theorems touch such inputs.)  Finite parsed values
are represented exactly rather than rounded to the nearest float.
-/

inductive PFErr where
  | syntaxErr
  | rangeErr
  deriving DecidableEq

def isDigit (c : Char) : Bool := 48 ≤ c.toNat && c.toNat ≤ 57

/-- Leading digit run and the rest. -/
def spanDigits : List Char → List Char × List Char
  | [] => ([], [])
  | c :: rest =>
      if isDigit c then
        let (ds, tl) := spanDigits rest
        (c :: ds, tl)
      else ([], c :: rest)

/-- Numeric value of a digit run. -/
def digitsVal : List Char → ℕ → ℕ
  | [], acc => acc
  | c :: rest, acc => digitsVal rest (acc * 10 + (c.toNat - 48))

/-- Absolute value. -/
def Q.abs (a : Q) : Q := ⟨|a.n|, a.d, a.dpos⟩

/-- Parse the exponent part; `none` on malformed input. -/
def parseExp : List Char → Option ℤ
  | [] => some 0
  | c :: rest =>
      if c = 'e' ∨ c = 'E' then
        let (sgn, rest2) : ℤ × List Char :=
          match rest with
          | '+' :: r => (1, r)
          | '-' :: r => (-1, r)
          | r => (1, r)
        let (ds, tl) := spanDigits rest2
        if ds = [] ∨ tl ≠ [] then none
        else some (sgn * (digitsVal ds 0 : ℤ))
      else none

/-- Model of `strconv.ParseFloat(s, 64)`: the value and the error, if any. -/
def parseFloat (s : String) : EF × Option PFErr :=
  let cs := s.data
  let (sgn, cs1) : ℤ × List Char :=
    match cs with
    | '+' :: r => (1, r)
    | '-' :: r => (-1, r)
    | r => (1, r)
  let (d1, cs2) := spanDigits cs1
  let (d2, cs3) : List Char × List Char :=
    match cs2 with
    | '.' :: r => spanDigits r
    | r => ([], r)
  if d1 = [] ∧ d2 = [] then (.fin (Q.ofInt 0), some .syntaxErr)
  else
    match parseExp cs3 with
    | none => (.fin (Q.ofInt 0), some .syntaxErr)
    | some ex =>
        let m : ℤ := sgn * (digitsVal (d1 ++ d2) 0 : ℤ)
        let e : ℤ := ex - d2.length
        let q : Q :=
          if 0 ≤ e then Q.ofInt (m * (Nat.pow 10 e.toNat : ℕ))
          else Q.mk2 m (Nat.pow 10 (-e).toNat : ℕ)
        if Q.qle (Q.ofInt (Nat.pow 2 1024 : ℕ)) q.abs then
          (.inf (decide (m < 0)), some .rangeErr)
        else if m ≠ 0 ∧ Q.qlt q.abs (Q.mk2 1 (Nat.pow 2 1075 : ℕ)) then
          (.fin (Q.ofInt 0), some .rangeErr)
        else (.fin q, none)

/-- `globalErr`: write the `err` and `errmsg` globals through the scope
(`val.Set(&Bool{...})`, `val.Set(&String{...})`); the Go code panics when a
global is missing — modelled as an error result, which no theorem hits. -/
def globalErrSet (st : St) (sc : Scope) (isErr : Bool) (msg : String) :
    St × RVal :=
  match scopeGet sc "err" with
  | some (some a) =>
      match scopeGet sc "errmsg" with
      | some (some b) =>
          (⟨(st.heap.set a (.boolO isErr)).set b (.strO msg), st.out⟩, .nilV)
      | _ => (st, .errV "cannot find global errmsg")
  | _ => (st, .errV "cannot find global err")

/-- `str2numFunc`: reset the error globals, parse, set them on failure, and
return the num `ParseFloat` produced; the builtin itself never returns an
error, so evaluation continues. -/
def str2num (st : St) (sc : Scope) (s : String) : St × RVal :=
  match globalErrSet st sc false "" with
  | (st1, .nilV) =>
      let (n, e) := parseFloat s
      match e with
      | some _ =>
          match globalErrSet st1 sc true ("str2num: cannot parse " ++ s) with
          | (st2, .nilV) =>
              let (st3, a) := alloc st2 (.numO n)
              (st3, .addr a)
          | (st2, r) => (st2, r)
      | none =>
          let (st2, a) := alloc st1 (.numO n)
          (st2, .addr a)
  | (st1, r) => (st1, r)

/-!
## Readout helpers for VM runs
-/

/-- The final num value of a global, when the run halted with one there. -/
def vmFinalNum (out : VmOut) (i : ℕ) : Option Q :=
  match out with
  | .halted g =>
      match g.get? i with
      | some (some (.numv q)) => some q
      | _ => none
  | _ => none

/-- The run halted and global `i` holds a num equal to `q`. -/
def vmGlobalIs (out : VmOut) (i : ℕ) (q : Q) : Bool :=
  match vmFinalNum out i with
  | some w => Q.qeq w q
  | none => false

/-- Placeholder `FuncDecl` for builtin calls (the evaluator dispatches
builtins by name before ever touching the declaration). -/
def dummyFd : FuncD := .mk [] none (.block [])

set_option maxRecDepth 100000

/-!
## C1 — `x := 2/0`
-/

/-- Compiled form of `x := 2 / 0` (constants interned, operands pushed left
to right, result stored in the global for `x`). -/
def c1Code : List Opc := [.constant 0, .constant 1, .divOp, .setGlobal 0]

def c1Consts : List VmVal := [.numv (Q.ofInt 2), .numv (Q.ofInt 0)]

/-- The same program as an AST for the tree evaluator. -/
def c1Prog : Node := .program
  [.decl "x" .numT (.binary .slash (.numLit (qi 2)) (.numLit (qi 0)))]

/-- C1: the stack VM halts `x := 2/0` with `DivideByZero` and never writes
`x` (first two conjuncts), but the tree-walking evaluator raises no error:
`evalBinaryNumExpr` divides the floats, `x` becomes `+Inf`, and evaluation
ends normally (last two conjuncts).  The claim that both runtimes halt with
`DivideByZero` fails on the tree evaluator. -/
theorem evy_c1_divide_by_zero :
    vmRun 20 c1Code c1Consts ⟨[], [none], 0⟩ = .failed .divideByZero
  ∧ vmFinalNum (vmRun 20 c1Code c1Consts ⟨[], [none], 0⟩) 0 = none
  ∧ finalRes (runEvy c1Prog) = .nilV
  ∧ finalVar (runEvy c1Prog) "x" = .numP (.inf false) := by
  exact ⟨rfl, rfl, rfl, rfl⟩

/-!
## C3 — value semantics of `y := x` followed by `y = 2`
-/

/-- `x := 1` / `y := x` / `y = 2`. -/
def c3Prog : Node := .program
  [.decl "x" .numT (.numLit (qi 1)),
   .decl "y" .numT (.varRef "x"),
   .assign (.varRef "y") (.numLit (qi 2))]

/-- C3: `evalDeclaration` stores the evaluated `Value` pointer itself, so
after `y := x` both names alias one num object, and the in-place
`target.Set` of `y = 2` is visible through `x`: the program ends with
`x = 2`, not the claimed `1`. -/
theorem evy_c3_decl_aliases_value :
    finalVar (runEvy c3Prog) "x" = .numP (qi 2)
  ∧ finalVar (runEvy c3Prog) "y" = .numP (qi 2) := by
  exact ⟨rfl, rfl⟩

/-!
## C8 — nested `break`
-/

/-- The "nested loops and breaks" program of TestWhile:
`x := 0` / `while true { while true { break }; x = x + 1; break }` /
`x = x`; the VM test expects `x = 1`. -/
def c8Prog : Node := .program
  [.decl "x" .numT (.numLit (qi 0)),
   .whileStmt (.mk (.boolLit true) (.block
     [.whileStmt (.mk (.boolLit true) (.block [.brk])),
      .assign (.varRef "x") (.binary .plus (.varRef "x") (.numLit (qi 1))),
      .brk])),
   .assign (.varRef "x") (.varRef "x")]

/-- C8: in the tree evaluator `evalWhile` returns the loop value without
consuming a break sentinel, and `evalStatments` stops on it, so the inner
`break` escapes through the outer loop: `x = x + 1` never runs, `x` ends
`0` (the VM test for this very program expects `1`), and the sentinel
reaches the program top level. -/
theorem evy_c8_break_escapes_outer :
    finalVar (runEvy c8Prog) "x" = .numP (qi 0)
  ∧ finalRes (runEvy c8Prog) = .brkV := by
  exact ⟨rfl, rfl⟩

/-!
## C2 — scope of a user-defined function call
-/

/-- `func show { print x }`. -/
def c2ShowFd : FuncD := .mk [] none (.block [.call "print" [.varRef "x"] dummyFd])

/-- `func caller { x := 5; show }` — the local `x` shadows the top-level
one; the parser accepts such shadowing (parser tests, TestScope). -/
def c2CallerFd : FuncD := .mk [] none (.block
  [.decl "x" .numT (.numLit (qi 5)),
   .call "show" [] c2ShowFd])

/-- `x := 1` / the two definitions above / `caller`. -/
def c2Prog : Node := .program
  [.decl "x" .numT (.numLit (qi 1)),
   .call "caller" [] c2CallerFd]

/-- C2: `evalFunctionCall` hands `innerScopeWithArgs` the caller's current
scope, so `show`'s body resolves `x` to `caller`'s local binding and prints
`5`.  Under the claimed lexical scoping — the callee's scope a child of the
defining (top-level) scope — it would print `1`. -/
theorem evy_c2_call_scope_is_callers :
    finalOut (runEvy c2Prog) = ["5\n"]
  ∧ ["5\n"] ≠ ["1\n"] := by
  exact ⟨rfl, by decide⟩

/-!
## C6 — evaluation order of map literal pair values
-/

/-- `func f:num { print "f"; return 1 }`. -/
def c6FFd : FuncD := .mk [] none (.block
  [.call "print" [.strLit "f"] dummyFd,
   .ret (some (.numLit (qi 1)))])

/-- `func g:num { print "g"; return 2 }`. -/
def c6GFd : FuncD := .mk [] none (.block
  [.call "print" [.strLit "g"] dummyFd,
   .ret (some (.numLit (qi 2)))])

/-- `m := {a: (f) b: (g)}` with the hash map handing the pairs to `range`
in the order `iter`; the source pair order is `a`, `b` either way. -/
def c6Prog (iter : List (String × Node)) : Node := .program
  [.decl "m" .mapT (.mapLit iter ["a", "b"])]

def c6PairA : String × Node := ("a", .call "f" [] c6FFd)

def c6PairB : String × Node := ("b", .call "g" [] c6GFd)

/-- C6: `evalMapLiteral` ranges over the Go hash map `m.Pairs`, whose
iteration order is unspecified, not over `m.Order`.  The two runs below
embed the same source text `m := {a: (f) b: (g)}` — same written pair
order, both hash iteration orders Go may choose — and their observable
outputs differ, while the resulting map values are equal.  The claimed
deterministic source-order evaluation fails. -/
theorem evy_c6_map_literal_order :
    finalOut (runEvy (c6Prog [c6PairA, c6PairB])) = ["f\n", "g\n"]
  ∧ finalOut (runEvy (c6Prog [c6PairB, c6PairA])) = ["g\n", "f\n"]
  ∧ (["f\n", "g\n"] : List String) ≠ ["g\n", "f\n"]
  ∧ pvEquals (finalVar (runEvy (c6Prog [c6PairA, c6PairB])) "m")
      (finalVar (runEvy (c6Prog [c6PairB, c6PairA])) "m") = true := by
  exact ⟨rfl, rfl, by decide, by decide⟩

/-!
## C7 — `for i := range 10 0 -1`
-/

/-- Constants pool of the "for range negative step" test case:
`0, 10, 1, 0, 1`. -/
def c7Consts : List VmVal :=
  [.numv (Q.ofInt 0), .numv (Q.ofInt 10), .numv (Q.ofInt 1),
   .numv (Q.ofInt 0), .numv (Q.ofInt 1)]

/-- The bytecode the compiler emits for
`x := 0` / `for i := range 10 0 -1 { x = i }` / `x = x`, transcribed from
the assertion in TestStepRange: the negative literal step is compiled as
`OpConstant 1; OpMinus`, the hidden counter (global 1) starts at 10, the
loop condition is `OpStepRange` over counter, step and stop, and the
back-jump target is byte offset 12. -/
def c7Code : List Opc :=
  [.constant 0, .setGlobal 0,
   .constant 1, .setGlobal 1,
   .getGlobal 1, .constant 2, .minusU, .constant 3, .stepRange,
   .jumpOnFalse 46,
   .getGlobal 1, .setGlobal 0,
   .getGlobal 1, .constant 4, .minusU, .addOp, .setGlobal 1,
   .jump 12,
   .getGlobal 0, .setGlobal 0]

/-- C7: the run terminates; `x` (global 0) ends at 1 — the last loop-body
iteration saw `i = 1` — and the hidden counter (global 1) ends at 0, where
`OpStepRange` with step −1 stops because adding the step no longer moves
toward `stop = 0`. -/
theorem evy_c7_negative_step_range :
    vmGlobalIs (vmRun 300 c7Code c7Consts ⟨[], [none, none], 0⟩) 0 (Q.ofInt 1) = true
  ∧ vmGlobalIs (vmRun 300 c7Code c7Consts ⟨[], [none, none], 0⟩) 1 (Q.ofInt 0) = true := by
  exact ⟨by decide, by decide⟩

/-!
## C5 — the `%` operator
-/

/-- Compiled form of `x := 2.5 % 1.3`. -/
def c5Code : List Opc := [.constant 0, .constant 1, .modOp, .setGlobal 0]

def c5Consts : List VmVal := [.numv (Q.mk2 5 2), .numv (Q.mk2 13 10)]

/-- C5 counterexample: `2.5 % 1.3` evaluates to `1.2` — the truncated
(`math.Mod`) remainder asserted by TestNumOperations — which differs from
the IEEE 754 remainder of 2.5 by 1.3, namely −0.1.  The claim that `%`
computes the IEEE remainder fails at its own example. -/
theorem evy_c5_mod_not_ieee_counterexample :
    vmGlobalIs (vmRun 20 c5Code c5Consts ⟨[], [none], 0⟩) 0 (Q.mk2 6 5) = true
  ∧ vmGlobalIs (vmRun 20 c5Code c5Consts ⟨[], [none], 0⟩) 0
      (Q.ieeeRemainder (Q.mk2 5 2) (Q.mk2 13 10)) = false
  ∧ Q.qeq (Q.ieeeRemainder (Q.mk2 5 2) (Q.mk2 13 10)) (Q.mk2 (-1) 10) = true := by
  exact ⟨by decide, by decide, by decide⟩

/-- C5 amended: on two num operands with a nonzero right operand, `OpModulo`
computes the truncated-division remainder `Q.fmod` (C `fmod` / Go
`math.Mod`), not the IEEE remainder operation. -/
theorem evy_c5_mod_fmod (l r : Q) (h : r.isZero = false) :
    vmRun 3 [.modOp, .setGlobal 0] [] ⟨[.numv r, .numv l], [none], 0⟩
      = .halted [some (.numv (Q.fmod l r))] := by
  simp [vmRun, fetch, codeWidth, Opc.width, h]

/-- Witness: the amended statement applied at 2.5 and 1.3. -/
theorem evy_c5_mod_fmod_witness :
    vmRun 3 [.modOp, .setGlobal 0] []
        ⟨[.numv (Q.mk2 13 10), .numv (Q.mk2 5 2)], [none], 0⟩
      = .halted [some (.numv (Q.fmod (Q.mk2 5 2) (Q.mk2 13 10)))] :=
  evy_c5_mod_fmod (Q.mk2 5 2) (Q.mk2 13 10) (by decide)

/-!
## C9 — concatenation and slices yield fresh, non-aliased handles
-/

/-- Reading an old handle is unaffected by allocating a fresh slab. -/
theorem arrRead_alloc {α : Type} (h : List (List α)) (s : List α) (a : ℕ)
    (ha : a < h.length) : arrRead (h ++ [s]) a = arrRead h a := by
  simp only [arrRead, List.getD]
  rw [List.get?_append ha]

/-- The freshly allocated handle reads back its slab. -/
theorem arrRead_alloc_new {α : Type} (h : List (List α)) (s : List α) :
    arrRead (h ++ [s]) h.length = s := by
  simp only [arrRead, List.getD]
  rw [List.get?_concat_length]
  rfl

/-- Writing through the fresh handle does not change an old handle. -/
theorem arrRead_set_fresh {α : Type} (h : List (List α)) (s s2 : List α)
    (a : ℕ) (ha : a < h.length) :
    arrRead ((h ++ [s]).set h.length s2) a = arrRead h a := by
  simp only [arrRead, List.getD]
  rw [List.get?_set_ne _ _ (by omega), List.get?_append ha]

/-- C9: `a + b` and `a[j:]` allocate fresh handles (at the old heap end)
holding the concatenated, respectively sliced, elements, and writing any
element of the fresh handle leaves the element slabs of `a` and of `b`
exactly as they were. -/
theorem evy_c9_fresh_handles {α : Type} (h : List (List α)) (a b i j k : ℕ)
    (v : α) (ha : a < h.length) (hb : b < h.length) :
    arrRead (arrConcat h a b).1 (arrConcat h a b).2 = arrRead h a ++ arrRead h b
  ∧ arrRead (arrSetElem (arrConcat h a b).1 (arrConcat h a b).2 i v) a = arrRead h a
  ∧ arrRead (arrSetElem (arrConcat h a b).1 (arrConcat h a b).2 i v) b = arrRead h b
  ∧ arrRead (arrSliceFrom h a j).1 (arrSliceFrom h a j).2 = (arrRead h a).drop j
  ∧ arrRead (arrSetElem (arrSliceFrom h a j).1 (arrSliceFrom h a j).2 k v) a
      = arrRead h a := by
  refine ⟨?_, ?_, ?_, ?_, ?_⟩
  · exact arrRead_alloc_new h _
  · exact arrRead_set_fresh h _ _ a ha
  · exact arrRead_set_fresh h _ _ b hb
  · exact arrRead_alloc_new h _
  · exact arrRead_set_fresh h _ _ a ha

/-- Witness: the fresh-handle statement at a concrete two-array heap. -/
theorem evy_c9_fresh_handles_witness :
    arrRead (arrConcat [[1, 2], [3, 4]] 0 1).1 (arrConcat [[1, 2], [3, 4]] 0 1).2
        = arrRead [[1, 2], [3, 4]] 0 ++ arrRead [[1, 2], [3, 4]] 1
  ∧ arrRead (arrSetElem (arrConcat [[1, 2], [3, 4]] 0 1).1
        (arrConcat [[1, 2], [3, 4]] 0 1).2 0 (9 : ℕ)) 0 = arrRead [[1, 2], [3, 4]] 0
  ∧ arrRead (arrSetElem (arrConcat [[1, 2], [3, 4]] 0 1).1
        (arrConcat [[1, 2], [3, 4]] 0 1).2 0 9) 1 = arrRead [[1, 2], [3, 4]] 1
  ∧ arrRead (arrSliceFrom [[1, 2], [3, 4]] 0 1).1 (arrSliceFrom [[1, 2], [3, 4]] 0 1).2
        = (arrRead [[1, 2], [3, 4]] 0).drop 1
  ∧ arrRead (arrSetElem (arrSliceFrom [[1, 2], [3, 4]] 0 1).1
        (arrSliceFrom [[1, 2], [3, 4]] 0 1).2 0 9) 0 = arrRead [[1, 2], [3, 4]] 0 :=
  evy_c9_fresh_handles [[1, 2], [3, 4]] 0 1 0 1 0 9 (by decide) (by decide)

/-!
## C10 — `str2num` and the soft error channel
-/

/-- The top-level scope shape the builtins rely on: the `err` global bound
at heap address 0, `errmsg` at address 1. -/
def c10Scope : Scope := [[("err", some 0), ("errmsg", some 1)]]

/-- Initial state for a `str2num` call: the two globals on the heap. -/
def c10St (e0 : Bool) (m0 : String) : St := ⟨[.boolO e0, .strO m0], []⟩

/-- The `err` global after a run. -/
def errFlag (st : St) : Option Bool :=
  match heapGet st.heap 0 with
  | some (.boolO b) => some b
  | _ => none

/-- The `errmsg` global after a run. -/
def errMsgG (st : St) : Option String :=
  match heapGet st.heap 1 with
  | some (.strO m) => some m
  | _ => none

/-- The num value a builtin call returned. -/
def retNum (p : St × RVal) : Option EF := numAt p.1.heap p.2.toOpt

/-- Computation of a `str2num` call on the global layout above: the
globals are first reset, then set on parse failure, and the call returns
the num `ParseFloat` produced at a fresh address. -/
theorem str2num_eval (e0 : Bool) (m0 s : String) :
    str2num (c10St e0 m0) c10Scope s =
      match (parseFloat s).2 with
      | some _ =>
          (⟨[.boolO true, .strO ("str2num: cannot parse " ++ s),
             .numO (parseFloat s).1], []⟩, .addr 2)
      | none =>
          (⟨[.boolO false, .strO "", .numO (parseFloat s).1], []⟩, .addr 2) := by
  unfold str2num
  rcases hpf : parseFloat s with ⟨n, e⟩
  cases e <;>
    simp [globalErrSet, c10St, c10Scope, scopeGet, lookupA, alloc, hpf]

/-- The failure message is never empty. -/
theorem str2numMsg_ne (s : String) : ("str2num: cannot parse " ++ s) ≠ "" := by
  intro hc
  have := congrArg String.length hc
  simp [String.length_append] at this
  exact absurd this.1 (by decide)

/-- C10 counterexample: on `"1e999"` — a parse failure, `ParseFloat`
reports a range error — `str2num` sets `err = true` and a message, but
returns `+Inf`, not the claimed zero value 0. -/
theorem evy_c10_str2num_counterexample :
    retNum (str2num (c10St false "") c10Scope "1e999") = some (.inf false)
  ∧ (parseFloat "1e999").2 = some .rangeErr
  ∧ errFlag (str2num (c10St false "") c10Scope "1e999").1 = some true
  ∧ errMsgG (str2num (c10St false "") c10Scope "1e999").1
      = some "str2num: cannot parse 1e999"
  ∧ (str2num (c10St false "") c10Scope "1e999").2.isError = false := by
  exact ⟨rfl, by decide, rfl, rfl, rfl⟩

/-- C10 amended: whatever the initial contents of the globals, a failing
`str2num` call sets `err = true` and a non-empty `errmsg` and returns the
value `ParseFloat` produced — 0 for malformed input but a signed infinity
for out-of-range values — and a successful call resets `err = false` and
`errmsg = ""`; the builtin never halts the program (no error result). -/
theorem evy_c10_str2num (s : String) (e0 : Bool) (m0 : String) :
    ((parseFloat s).2.isSome = true →
        errFlag (str2num (c10St e0 m0) c10Scope s).1 = some true
      ∧ errMsgG (str2num (c10St e0 m0) c10Scope s).1
          = some ("str2num: cannot parse " ++ s)
      ∧ ("str2num: cannot parse " ++ s) ≠ ""
      ∧ retNum (str2num (c10St e0 m0) c10Scope s) = some (parseFloat s).1
      ∧ (str2num (c10St e0 m0) c10Scope s).2.isError = false)
  ∧ ((parseFloat s).2 = none →
        errFlag (str2num (c10St e0 m0) c10Scope s).1 = some false
      ∧ errMsgG (str2num (c10St e0 m0) c10Scope s).1 = some ""
      ∧ retNum (str2num (c10St e0 m0) c10Scope s) = some (parseFloat s).1
      ∧ (str2num (c10St e0 m0) c10Scope s).2.isError = false) := by
  rw [str2num_eval]
  rcases hpf : (parseFloat s).2 with _ | pf
  · refine ⟨fun hs => by simp [hpf] at hs, fun _ => ?_⟩
    exact ⟨rfl, rfl, rfl, rfl⟩
  · refine ⟨fun _ => ⟨rfl, rfl, str2numMsg_ne s, rfl, rfl⟩,
      fun hn => by simp [hpf] at hn⟩

/-- Witness: the amended statement applied at the failing input `"abc"`
(syntax error: the parsed value is 0) and, for the reset half, at the
succeeding input `"2.5"`. -/
theorem evy_c10_str2num_witness :
    (errFlag (str2num (c10St false "") c10Scope "abc").1 = some true
      ∧ errMsgG (str2num (c10St false "") c10Scope "abc").1
          = some ("str2num: cannot parse " ++ "abc")
      ∧ ("str2num: cannot parse " ++ "abc") ≠ ""
      ∧ retNum (str2num (c10St false "") c10Scope "abc")
          = some (parseFloat "abc").1
      ∧ (str2num (c10St false "") c10Scope "abc").2.isError = false)
  ∧ (errFlag (str2num (c10St true "old") c10Scope "2.5").1 = some false
      ∧ errMsgG (str2num (c10St true "old") c10Scope "2.5").1 = some ""
      ∧ retNum (str2num (c10St true "old") c10Scope "2.5")
          = some (parseFloat "2.5").1
      ∧ (str2num (c10St true "old") c10Scope "2.5").2.isError = false) :=
  ⟨(evy_c10_str2num "abc" false "").1 (by decide),
   (evy_c10_str2num "2.5" true "old").2 (by decide)⟩

/-!
## C4 — properties of `Value.Equals`
-/

/-- Pairwise-distinct map keys; every runtime map store satisfies this
(Go map keys are unique). -/
def noDupKeys : List (String × PVal) → Bool
  | [] => true
  | (k, _) :: rest => (lookupA rest k).isNone && noDupKeys rest

mutual
/-- A value tree is well formed when its nums are NaN-free and its maps
bind each key once. -/
def wfVal : PVal → Bool
  | .numP a => a.notNan
  | .strP _ => true
  | .boolP _ => true
  | .nilP => true
  | .anyP none => true
  | .anyP (some v) => wfVal v
  | .arrP es => wfList es
  | .mapP ps => noDupKeys ps && wfPairs ps

def wfList : List PVal → Bool
  | [] => true
  | v :: rest => wfVal v && wfList rest

def wfPairs : List (String × PVal) → Bool
  | [] => true
  | (_, v) :: rest => wfVal v && wfPairs rest
end

mutual
/-- No `any` box anywhere (the shape `pvStrip` produces). -/
def boxFree : PVal → Bool
  | .anyP (some _) => false
  | .anyP none => true
  | .arrP es => boxFreeList es
  | .mapP ps => boxFreePairs ps
  | .numP _ => true
  | .strP _ => true
  | .boolP _ => true
  | .nilP => true

def boxFreeList : List PVal → Bool
  | [] => true
  | v :: rest => boxFree v && boxFreeList rest

def boxFreePairs : List (String × PVal) → Bool
  | [] => true
  | (_, v) :: rest => boxFree v && boxFreePairs rest
end

theorem wfList_mem {es : List PVal} {v : PVal} (h : wfList es = true)
    (hv : v ∈ es) : wfVal v = true := by
  induction es with
  | nil => cases hv
  | cons w rest ih =>
      simp only [wfList, Bool.and_eq_true] at h
      rcases hv with _ | hv
      · exact h.1
      · exact ih h.2 (by assumption)

theorem wfPairs_mem {ps : List (String × PVal)} {k : String} {v : PVal}
    (h : wfPairs ps = true) (hv : (k, v) ∈ ps) : wfVal v = true := by
  induction ps with
  | nil => cases hv
  | cons p rest ih =>
      obtain ⟨k2, w⟩ := p
      simp only [wfPairs, Bool.and_eq_true] at h
      rcases hv with _ | hv
      · exact h.1
      · exact ih h.2 (by assumption)

theorem boxFreeList_mem {es : List PVal} {v : PVal} (h : boxFreeList es = true)
    (hv : v ∈ es) : boxFree v = true := by
  induction es with
  | nil => cases hv
  | cons w rest ih =>
      simp only [boxFreeList, Bool.and_eq_true] at h
      rcases hv with _ | hv
      · exact h.1
      · exact ih h.2 (by assumption)

theorem boxFreePairs_mem {ps : List (String × PVal)} {k : String} {v : PVal}
    (h : boxFreePairs ps = true) (hv : (k, v) ∈ ps) : boxFree v = true := by
  induction ps with
  | nil => cases hv
  | cons p rest ih =>
      obtain ⟨k2, w⟩ := p
      simp only [boxFreePairs, Bool.and_eq_true] at h
      rcases hv with _ | hv
      · exact h.1
      · exact ih h.2 (by assumption)

theorem lookupA_isSome_of_mem {ps : List (String × PVal)} {k : String}
    {v : PVal} (hv : (k, v) ∈ ps) : (lookupA ps k).isSome = true := by
  induction ps with
  | nil => cases hv
  | cons p rest ih =>
      obtain ⟨k2, w⟩ := p
      rcases hv with _ | hv
      · simp [lookupA]
      · simp only [lookupA]
        by_cases hk : k2 = k
        · simp [hk]
        · simp [hk]
          exact ih (by assumption)

theorem lookupA_mem_nodup {ps : List (String × PVal)} {k : String} {v : PVal}
    (hnd : noDupKeys ps = true) (hv : (k, v) ∈ ps) : lookupA ps k = some v := by
  induction ps with
  | nil => cases hv
  | cons p rest ih =>
      obtain ⟨k2, w⟩ := p
      simp only [noDupKeys, Bool.and_eq_true] at hnd
      rcases hv with _ | hv
      · simp [lookupA]
      · have hv2 : (k, v) ∈ rest := by assumption
        have hs := lookupA_isSome_of_mem hv2
        by_cases hk : k2 = k
        · subst hk
          rw [hnd.1.symm] at hs
          simp [Option.isNone] at hs
          cases hx : lookupA rest k2 with
          | none => rw [hx] at hs; simp at hs
          | some u => rw [hx] at hnd; simp [Option.isNone] at hnd
        · simp only [lookupA, hk, if_false]
          exact ih hnd.2 (by assumption)

theorem eqList_of_forall (es : List PVal)
    (h : ∀ v ∈ es, eqCore v v = true) : eqList es es = true := by
  induction es with
  | nil => rfl
  | cons v rest ih =>
      simp only [eqList, Bool.and_eq_true]
      exact ⟨h v (by simp), ih fun w hw => h w (by simp [hw])⟩

theorem eqMapSub_of (ps whole : List (String × PVal))
    (h : ∀ k v, (k, v) ∈ ps → lookupA whole k = some v ∧ eqCore v v = true) :
    eqMapSub ps whole = true := by
  induction ps with
  | nil => rfl
  | cons p rest ih =>
      obtain ⟨k, v⟩ := p
      have hh := h k v (by simp)
      simp only [eqMapSub, hh.1, Bool.and_eq_true]
      exact ⟨hh.2, ih fun k2 v2 hm => h k2 v2 (by simp [hm])⟩

/-- Deep equality is reflexive on box-free, NaN-free values with
duplicate-free map keys. -/
theorem eqCore_refl : ∀ w : PVal, boxFree w = true → wfVal w = true →
    eqCore w w = true
  | .numP a, _, hw => by
      simpa [eqCore] using EF.feq_refl a (by simpa [wfVal] using hw)
  | .strP s, _, _ => by simp [eqCore]
  | .boolP b, _, _ => by simp [eqCore]
  | .nilP, _, _ => by simp [eqCore]
  | .anyP none, _, _ => by simp [eqCore]
  | .anyP (some v), hb, _ => by simp [boxFree] at hb
  | .arrP es, hb, hw => by
      simp only [eqCore]
      exact eqList_of_forall es fun v hv =>
        eqCore_refl v (boxFreeList_mem (by simpa [boxFree] using hb) hv)
          (wfList_mem (by simpa [wfVal] using hw) hv)
  | .mapP ps, hb, hw => by
      simp only [eqCore, Bool.and_eq_true, beq_self_eq_true, true_and]
      have hw2 : noDupKeys ps = true ∧ wfPairs ps = true := by
        simpa [wfVal, Bool.and_eq_true] using hw
      exact eqMapSub_of ps ps fun k v hm =>
        ⟨lookupA_mem_nodup hw2.1 hm,
         eqCore_refl v (boxFreePairs_mem (by simpa [boxFree] using hb) hm)
           (wfPairs_mem hw2.2 hm)⟩
  termination_by w => sizeOf w
  decreasing_by
  · have := List.sizeOf_lt_of_mem hv
    simp only [PVal.arrP.sizeOf_spec]
    omega
  · have := List.sizeOf_lt_of_mem hm
    have h2 : sizeOf v < sizeOf (k, v) := by simp
    simp only [PVal.mapP.sizeOf_spec]
    omega

theorem lookupA_strip (ps : List (String × PVal)) (k : String) :
    lookupA (pvStripPairs ps) k = (lookupA ps k).map pvStrip := by
  induction ps with
  | nil => rfl
  | cons p rest ih =>
      obtain ⟨k2, v⟩ := p
      by_cases hk : k2 = k
      · simp [pvStripPairs, lookupA, hk]
      · simp [pvStripPairs, lookupA, hk, ih]

theorem noDupKeys_strip {ps : List (String × PVal)} (h : noDupKeys ps = true) :
    noDupKeys (pvStripPairs ps) = true := by
  induction ps with
  | nil => rfl
  | cons p rest ih =>
      obtain ⟨k, v⟩ := p
      simp only [noDupKeys, Bool.and_eq_true] at h
      simp only [pvStripPairs, noDupKeys, Bool.and_eq_true, lookupA_strip]
      exact ⟨by simp [Option.isNone_iff_eq_none] at h ⊢; simp [h.1], ih h.2⟩

theorem boxFreeList_of (es : List PVal)
    (h : ∀ v ∈ es, boxFree (pvStrip v) = true) :
    boxFreeList (pvStripList es) = true := by
  induction es with
  | nil => rfl
  | cons v rest ih =>
      simp only [pvStripList, boxFreeList, Bool.and_eq_true]
      exact ⟨h v (by simp), ih fun w hw => h w (by simp [hw])⟩

theorem boxFreePairs_of (ps : List (String × PVal))
    (h : ∀ k v, (k, v) ∈ ps → boxFree (pvStrip v) = true) :
    boxFreePairs (pvStripPairs ps) = true := by
  induction ps with
  | nil => rfl
  | cons p rest ih =>
      obtain ⟨k, v⟩ := p
      simp only [pvStripPairs, boxFreePairs, Bool.and_eq_true]
      exact ⟨h k v (by simp), ih fun k2 w hw => h k2 w (by simp [hw])⟩

/-- Stripping removes every box. -/
theorem boxFree_strip : ∀ v : PVal, boxFree (pvStrip v) = true
  | .numP _ => by simp [pvStrip, boxFree]
  | .strP _ => by simp [pvStrip, boxFree]
  | .boolP _ => by simp [pvStrip, boxFree]
  | .nilP => by simp [pvStrip, boxFree]
  | .anyP none => by simp [pvStrip, boxFree]
  | .anyP (some v) => by
      simpa [pvStrip] using boxFree_strip v
  | .arrP es => by
      simp only [pvStrip, boxFree]
      exact boxFreeList_of es fun v _ => boxFree_strip v
  | .mapP ps => by
      simp only [pvStrip, boxFree]
      exact boxFreePairs_of ps fun k v _ => boxFree_strip v
  termination_by v => sizeOf v
  decreasing_by
  · simp; omega
  · rename_i hv
    have := List.sizeOf_lt_of_mem hv
    simp only [PVal.arrP.sizeOf_spec]
    omega
  · rename_i hv
    have := List.sizeOf_lt_of_mem hv
    have h2 : sizeOf v < sizeOf (k, v) := by simp
    simp only [PVal.mapP.sizeOf_spec]
    omega

theorem wfList_of (es : List PVal) (h0 : wfList es = true)
    (h : ∀ v ∈ es, wfVal v = true → wfVal (pvStrip v) = true) :
    wfList (pvStripList es) = true := by
  induction es with
  | nil => rfl
  | cons v rest ih =>
      simp only [wfList, Bool.and_eq_true] at h0
      simp only [pvStripList, wfList, Bool.and_eq_true]
      exact ⟨h v (by simp) h0.1, ih h0.2 fun w hw => h w (by simp [hw])⟩

theorem wfPairs_of (ps : List (String × PVal)) (h0 : wfPairs ps = true)
    (h : ∀ k v, (k, v) ∈ ps → wfVal v = true → wfVal (pvStrip v) = true) :
    wfPairs (pvStripPairs ps) = true := by
  induction ps with
  | nil => rfl
  | cons p rest ih =>
      obtain ⟨k, v⟩ := p
      simp only [wfPairs, Bool.and_eq_true] at h0
      simp only [pvStripPairs, wfPairs, Bool.and_eq_true]
      exact ⟨h k v (by simp) h0.1, ih h0.2 fun k2 w hw => h k2 w (by simp [hw])⟩

/-- Stripping preserves well-formedness. -/
theorem wf_strip : ∀ v : PVal, wfVal v = true → wfVal (pvStrip v) = true
  | .numP _, h => by simpa [pvStrip, wfVal] using h
  | .strP _, _ => by simp [pvStrip, wfVal]
  | .boolP _, _ => by simp [pvStrip, wfVal]
  | .nilP, _ => by simp [pvStrip, wfVal]
  | .anyP none, _ => by simp [pvStrip, wfVal]
  | .anyP (some v), h => by
      simpa [pvStrip] using wf_strip v (by simpa [wfVal] using h)
  | .arrP es, h => by
      simp only [pvStrip, wfVal]
      exact wfList_of es (by simpa [wfVal] using h)
        fun v hm hw => wf_strip v hw
  | .mapP ps, h => by
      have h2 : noDupKeys ps = true ∧ wfPairs ps = true := by
        simpa [wfVal, Bool.and_eq_true] using h
      simp only [pvStrip, wfVal, Bool.and_eq_true]
      exact ⟨noDupKeys_strip h2.1,
        wfPairs_of ps h2.2 fun k v hm hw => wf_strip v hw⟩
  termination_by v => sizeOf v
  decreasing_by
  · simp; omega
  · have := List.sizeOf_lt_of_mem hm
    simp only [PVal.arrP.sizeOf_spec]
    omega
  · have := List.sizeOf_lt_of_mem hm
    have h3 : sizeOf v < sizeOf (k, v) := by simp
    simp only [PVal.mapP.sizeOf_spec]
    omega

/-- Base (atomic) value shapes: num, string, bool. -/
def PVal.isBase : PVal → Bool
  | .numP _ => true
  | .strP _ => true
  | .boolP _ => true
  | _ => false

theorem pvEquals_refl (v : PVal) (h : wfVal v = true) : pvEquals v v = true :=
  eqCore_refl (pvStrip v) (boxFree_strip v) (wf_strip v h)

theorem strBeq_comm (s t : String) : (s == t) = (t == s) := by
  by_cases h : s = t
  · rw [h]
  · rw [beq_false_of_ne h, beq_false_of_ne fun hx => h hx.symm]

theorem pvEquals_symm_base (a b : PVal) (ha : a.isBase = true)
    (hb : b.isBase = true) : pvEquals a b = pvEquals b a := by
  cases a <;> cases b <;> simp_all [PVal.isBase, pvEquals, pvStrip, eqCore]
  · exact EF.feq_symm _ _
  · exact eq_comm
  · exact eq_comm

theorem pvEquals_trans_base (a b c : PVal) (ha : a.isBase = true)
    (hb : b.isBase = true) (hc : c.isBase = true)
    (h1 : pvEquals a b = true) (h2 : pvEquals b c = true) :
    pvEquals a c = true := by
  cases a <;> cases b <;> cases c <;>
    simp_all [PVal.isBase, pvEquals, pvStrip, eqCore]
  exact EF.feq_trans _ _ _ h1 h2

/-- `x := 0/0` / `y := x == x`. -/
def c4Prog : Node := .program
  [.decl "x" .numT (.binary .slash (.numLit (qi 0)) (.numLit (qi 0))),
   .decl "y" .boolT (.binary .eq (.varRef "x") (.varRef "x"))]

/-- C4 counterexample: the arithmetic result of `0/0` is the num NaN, and
`equals` on it — the very comparison `x == x` the evaluator performs —
yields `false`: equality is not reflexive at that runtime value. -/
theorem evy_c4_equals_nan_counterexample :
    finalVar (runEvy c4Prog) "x" = .numP .nan
  ∧ finalVar (runEvy c4Prog) "y" = .boolP false
  ∧ pvEquals (.numP .nan) (.numP .nan) = false := by
  exact ⟨rfl, rfl, by decide⟩

/-- C4 amended: `equals(v, v)` holds for every well-formed runtime value —
no NaN inside, map keys bound once, as every value built by the runtime
satisfies apart from NaN itself — and equality is symmetric and transitive
within each base type (num, string, bool); reflexivity fails exactly on
values containing NaN, such as the result of `0/0`. -/
theorem evy_c4_equals_props :
    (∀ v : PVal, wfVal v = true → pvEquals v v = true)
  ∧ (∀ a b : PVal, a.isBase = true → b.isBase = true →
       pvEquals a b = pvEquals b a)
  ∧ (∀ a b c : PVal, a.isBase = true → b.isBase = true → c.isBase = true →
       pvEquals a b = true → pvEquals b c = true → pvEquals a c = true) :=
  ⟨pvEquals_refl, pvEquals_symm_base, pvEquals_trans_base⟩

/-- Witness: reflexivity at a composite value (an array holding a num, a
string and a boxed bool), symmetry at two distinct nums, and transitivity
at three string values. -/
theorem evy_c4_equals_props_witness :
    pvEquals (.arrP [.numP (qi 1), .strP "a", .anyP (some (.boolP true))])
      (.arrP [.numP (qi 1), .strP "a", .anyP (some (.boolP true))]) = true
  ∧ pvEquals (.numP (qi 1)) (.numP (qi 2))
      = pvEquals (.numP (qi 2)) (.numP (qi 1))
  ∧ pvEquals (.strP "ab") (.strP "ab") = true :=
  ⟨evy_c4_equals_props.1 _ (by decide),
   evy_c4_equals_props.2.1 _ _ (by decide) (by decide),
   evy_c4_equals_props.2.2 (.strP "ab") (.strP "ab") (.strP "ab")
     (by decide) (by decide) (by decide) (by decide) (by decide)⟩
